import Mathlib

/-!
Shallow embedding of the LBTAS rating store (`src/lbtas.rs`):
the exchange/rating data model, the mutating operations `add_exchange` and
`add_rating`, the queries `view_ratings` and `generate_report`, and the
persistence hooks `load_from_file` / `save_to_file` / `export_to_json`.

Rust `HashMap`s are embedded as association lists; iteration order of such a
list stands for the (instance-dependent) iteration order of the `HashMap`.
`f64` aggregation is embedded exactly over `ℚ`. `i8` rating values are
embedded as `Int` (every stored value is validated into `[-1, 4]`, so no
8-bit wraparound is reachable through the store's operations).
-/

namespace LBTAS

/-- Rating values (`i8` in the source, validated into `[-1, 4]`). -/
abbrev Rating := Int

/-- `struct Metadata { created, total_ratings }` from `src/lbtas.rs`. -/
structure Metadata where
  created : String
  total_ratings : Nat
deriving DecidableEq

/-- `struct ExchangeData` from `src/lbtas.rs`: one `Vec<i8>` per fixed
category field, plus metadata. -/
structure ExchangeData where
  reliability : List Rating
  usability : List Rating
  performance : List Rating
  support : List Rating
  metadata : Metadata
deriving DecidableEq

/-- `ExchangeData::new()`: empty sequences, fresh timestamp, zero counter.
The current clock reading is passed in explicitly. -/
def ExchangeData.new (created : String) : ExchangeData :=
  { reliability := []
    usability := []
    performance := []
    support := []
    metadata := { created := created, total_ratings := 0 } }

/-- `ExchangeData::get_category`: name-to-field dispatch over the four fixed
category fields; any other name yields `None`. -/
def ExchangeData.get_category (e : ExchangeData) (category : String) :
    Option (List Rating) :=
  if category = "reliability" then some e.reliability
  else if category = "usability" then some e.usability
  else if category = "performance" then some e.performance
  else if category = "support" then some e.support
  else none

/-- The write half of `ExchangeData::get_category_mut`: replace the sequence
of the named field (no-op on an unknown name, which `add_rating` never
reaches, since it only writes after `get_category_mut` returned `Some`). -/
def ExchangeData.set_category (e : ExchangeData) (category : String)
    (l : List Rating) : ExchangeData :=
  if category = "reliability" then { e with reliability := l }
  else if category = "usability" then { e with usability := l }
  else if category = "performance" then { e with performance := l }
  else if category = "support" then { e with support := l }
  else e

/-- `exchange.metadata.total_ratings += 1` from `add_rating`. -/
def ExchangeData.incrTotal (e : ExchangeData) : ExchangeData :=
  { e with metadata := { e.metadata with
      total_ratings := e.metadata.total_ratings + 1 } }

/-- Sum of the lengths of the four per-category sequences of an exchange. -/
def ExchangeData.ratingCount (e : ExchangeData) : Nat :=
  e.reliability.length + e.usability.length + e.performance.length
    + e.support.length

/-- Modelled from the spec: the persistence codec is an external collaborator
(`load() -> Store state | NotFound | CorruptData`); `src/lbtas.rs` delegates
encoding and decoding to the `serde_json` crate, which is not part of this
repository. A file's content is either a well-formed storage document,
carrying the exchange map it encodes, or malformed (fails to parse). -/
inductive FileContent where
  | wellFormed (exchanges : List (String × ExchangeData))
  | malformed
deriving DecidableEq

/-- Modelled from the spec: the ambient filesystem and clock, external
collaborators of the store. `files` maps paths to contents, `writeOk` says
whether `fs::write` succeeds, and `now` is the string the next call to
`Utc::now().to_rfc3339()` returns. -/
structure World where
  files : List (String × FileContent)
  writeOk : Bool
  now : String
deriving DecidableEq

/-- Read the content stored at `path`, `none` when the path does not exist
(`std::path::Path::new(path).exists()` is false). -/
def World.readFile (w : World) (path : String) : Option FileContent :=
  (w.files.find? (fun p => p.1 == path)).map (fun p => p.2)

/-- `fs::write`: replace the content at `path`, creating the file if absent. -/
def World.writeFile (w : World) (path : String) (c : FileContent) : World :=
  if (w.files.find? (fun p => p.1 == path)).isSome then
    { w with files := w.files.map (fun p => if p.1 == path then (p.1, c) else p) }
  else
    { w with files := w.files ++ [(path, c)] }

/-- The distinct error cases produced by the store's operations (the source
reports them as formatted `String`s / boxed errors; each constructor stands
for one distinct message shape). -/
inductive LbtasError where
  | duplicateExchange (name : String)
  | unknownExchange (name : String)
  | invalidCriterion (criterion : String) (categories : List String)
  | ratingOutOfRange (rating : Int)
  | invalidCategory (criterion : String)
  | saveFailure
  | loadFailure
deriving DecidableEq

/-- `DEFAULT_CATEGORIES` from `src/lbtas.rs`. -/
def defaultCategories : List String :=
  ["reliability", "usability", "performance", "support"]

/-- `struct LevesonRatingSystem` from `src/lbtas.rs`; the `HashMap` of
exchanges is embedded as an association list. -/
structure LevesonRatingSystem where
  categories : List String
  storage_path : Option String
  exchanges : List (String × ExchangeData)
deriving DecidableEq

/-- `self.exchanges.get(name)` (also `contains_key` via `isSome`). -/
def lookupExchange (s : LevesonRatingSystem) (name : String) :
    Option ExchangeData :=
  (s.exchanges.find? (fun p => p.1 == name)).map (fun p => p.2)

/-- In-place update of the entry for `name` (the effect of mutating through
`get_mut` on an existing key: the map's other entries and the iteration
order are untouched). -/
def updateExchange (l : List (String × ExchangeData)) (name : String)
    (d : ExchangeData) : List (String × ExchangeData) :=
  l.map (fun p => if p.1 == name then (p.1, d) else p)

/-- `LevesonRatingSystem::load_from_file`: no storage path or missing file is
a no-op `Ok`; malformed content propagates the parse error (`?`) without
touching `self.exchanges`; well-formed content replaces `self.exchanges`. -/
def load_from_file (s : LevesonRatingSystem) (w : World) :
    LevesonRatingSystem × Except LbtasError Unit :=
  match s.storage_path with
  | none => (s, .ok ())
  | some path =>
    match w.readFile path with
    | none => (s, .ok ())
    | some .malformed => (s, .error .loadFailure)
    | some (.wellFormed ex) => ({ s with exchanges := ex }, .ok ())

/-- `LevesonRatingSystem::save_to_file`: no-op `Ok` without a storage path;
otherwise serialize the exchange map and write it, surfacing a write
failure as an error. -/
def save_to_file (s : LevesonRatingSystem) (w : World) :
    World × Except LbtasError Unit :=
  match s.storage_path with
  | none => (w, .ok ())
  | some path =>
    if w.writeOk then (w.writeFile path (.wellFormed s.exchanges), .ok ())
    else (w, .error .saveFailure)

/-- `LevesonRatingSystem::new`: default categories when none are given; when
a storage path is present, attempt hydration and discard its result
(`let _ = system.load_from_file();`). -/
def LevesonRatingSystem.new (storage_path : Option String)
    (categories : Option (List String)) (w : World) : LevesonRatingSystem :=
  let cats := categories.getD defaultCategories
  let system : LevesonRatingSystem :=
    { categories := cats, storage_path := storage_path, exchanges := [] }
  if system.storage_path.isSome then (load_from_file system w).1 else system

/-- `LevesonRatingSystem::add_exchange`: reject a duplicate name; otherwise
insert a fresh `ExchangeData` and flush, returning the flush's result. -/
def add_exchange (s : LevesonRatingSystem) (w : World) (name : String) :
    LevesonRatingSystem × World × Except LbtasError Unit :=
  if (lookupExchange s name).isSome then
    (s, w, .error (.duplicateExchange name))
  else
    let s' := { s with exchanges := s.exchanges ++ [(name, ExchangeData.new w.now)] }
    let r := save_to_file s' w
    (s', r.1, r.2)

/-- `LevesonRatingSystem::add_rating`: validate exchange existence, category
membership and rating range in that order; then push the value, increment
`total_ratings` and flush. On a validation failure nothing is mutated. -/
def add_rating (s : LevesonRatingSystem) (w : World) (exchange_name : String)
    (criterion : String) (rating : Int) :
    LevesonRatingSystem × World × Except LbtasError Unit :=
  match lookupExchange s exchange_name with
  | none => (s, w, .error (.unknownExchange exchange_name))
  | some exchange =>
    if ¬ s.categories.contains criterion then
      (s, w, .error (.invalidCriterion criterion s.categories))
    else if rating < -1 ∨ rating > 4 then
      (s, w, .error (.ratingOutOfRange rating))
    else
      match exchange.get_category criterion with
      | none => (s, w, .error (.invalidCategory criterion))
      | some l =>
        let ex' := ((exchange.set_category criterion (l ++ [rating]))).incrTotal
        let s' := { s with exchanges := updateExchange s.exchanges exchange_name ex' }
        let r := save_to_file s' w
        (s', r.1, r.2)

/-- Arithmetic mean of a list of ratings, as an exact rational
(`sum as f64 / len as f64` in the source). -/
def listMean (l : List Rating) : ℚ := (l.sum : ℚ) / (l.length : ℚ)

/-- `f64::round`: round half away from zero. -/
def roundAway (q : ℚ) : ℤ :=
  if 0 ≤ q then ⌊q + 1/2⌋ else -⌊-q + 1/2⌋

/-- `(avg * 100.0).round() / 100.0`: round to two decimal places. -/
def roundTo2 (q : ℚ) : ℚ := ((roundAway (q * 100) : ℚ)) / 100

/-- `struct RatingSummary` (the summary `HashMap` as an association list in
category order, which is how `view_ratings` fills it). -/
structure RatingSummary where
  ratings : List (String × Option ℚ)
deriving DecidableEq

/-- `LevesonRatingSystem::view_ratings`: per configured category, the
two-decimal rounded mean of that category's sequence, `none` for an empty
sequence; configured names that are not one of the four fields are skipped. -/
def view_ratings (s : LevesonRatingSystem) (name : String) :
    Except LbtasError RatingSummary :=
  match lookupExchange s name with
  | none => .error (.unknownExchange name)
  | some exchange =>
    .ok { ratings := s.categories.filterMap (fun criterion =>
      match exchange.get_category criterion with
      | some cat =>
        if cat.isEmpty then some (criterion, none)
        else some (criterion, some (roundTo2 (listMean cat)))
      | none => none) }

/-- `struct ExchangePerformance`. -/
structure ExchangePerformance where
  name : String
  average : ℚ
deriving DecidableEq

/-- `struct SystemReport` (both `HashMap`-valued fields as association
lists). -/
structure SystemReport where
  total_exchanges : Nat
  total_ratings : Nat
  system_average : Option ℚ
  category_averages : List (String × Option ℚ)
  top_performers : List ExchangePerformance
  bottom_performers : List ExchangePerformance
deriving DecidableEq

/-- The ratings one exchange contributes to `all_ratings` in
`generate_report`: for each configured category, the category's sequence
when the name resolves to a field and the sequence is non-empty. -/
def collectRatings (cats : List String) (e : ExchangeData) : List Rating :=
  cats.flatMap (fun c =>
    match e.get_category c with
    | some l => if l.isEmpty then [] else l
    | none => [])

/-- `all_ratings` in `generate_report`: every exchange's contributions, in
exchange-iteration order. -/
def allRatings (s : LevesonRatingSystem) : List Rating :=
  s.exchanges.flatMap (fun p => collectRatings s.categories p.2)

/-- `exchange_ratings` in `generate_report`: for one exchange, the mean of
each configured category that resolves to a field and is non-empty, in
configured-category order. -/
def perExchangeCategoryMeans (cats : List String) (e : ExchangeData) :
    List ℚ :=
  cats.filterMap (fun c =>
    match e.get_category c with
    | some l => if l.isEmpty then none else some (listMean l)
    | none => none)

/-- `exchange_averages` in `generate_report`: exchanges with at least one
qualifying category mean, mapped to the mean of those means. -/
def exchangeAverages (s : LevesonRatingSystem) : List (String × ℚ) :=
  s.exchanges.filterMap (fun p =>
    let means := perExchangeCategoryMeans s.categories p.2
    if means.isEmpty then none
    else some (p.1, means.sum / (means.length : ℚ)))

/-- `category_totals` in `generate_report`: per configured category, every
rating recorded for it across all exchanges, in exchange-iteration order.
(The `HashMap` is keyed by category name; duplicate configured names map to
identical entries, so association-list lookup agrees with the map.) -/
def categoryTotals (s : LevesonRatingSystem) : List (String × List Rating) :=
  s.categories.map (fun c => (c, s.exchanges.flatMap (fun p =>
    match p.2.get_category c with
    | some l => if l.isEmpty then [] else l
    | none => [])))

/-- The comparator `|a, b| b.average.partial_cmp(&a.average)` used by
`performances.sort_by`: descending by average. -/
def perfDesc (a b : ExchangePerformance) : Bool :=
  decide (b.average ≤ a.average)

/-- The sorted `performances` vector in `generate_report`: stable sort of
`exchange_averages` (in map-iteration order) descending by average. -/
def performances (s : LevesonRatingSystem) : List ExchangePerformance :=
  ((exchangeAverages s).map
    (fun p => { name := p.1, average := p.2 })).mergeSort perfDesc

/-- `LevesonRatingSystem::generate_report`. An empty exchange map
short-circuits to the all-empty report (in particular `category_averages`
is the EMPTY map there, with no entry for any category). -/
def generate_report (s : LevesonRatingSystem) : SystemReport :=
  if s.exchanges.isEmpty then
    { total_exchanges := 0
      total_ratings := 0
      system_average := none
      category_averages := []
      top_performers := []
      bottom_performers := [] }
  else
    let all := allRatings s
    let perfs := performances s
    { total_exchanges := s.exchanges.length
      total_ratings := all.length
      system_average := if all.isEmpty then none else some (listMean all)
      category_averages := (categoryTotals s).map (fun p =>
        (p.1, if p.2.isEmpty then none else some (listMean p.2)))
      top_performers := perfs.take 5
      bottom_performers := (perfs.reverse.take 5).reverse }

/-- `LevesonRatingSystem::export_to_json`: serialize the exchange map and
write it to `output_path` (independent of `storage_path`). -/
def export_to_json (s : LevesonRatingSystem) (w : World)
    (output_path : String) : World × Except LbtasError Unit :=
  if w.writeOk then
    (w.writeFile output_path (.wellFormed s.exchanges), .ok ())
  else (w, .error .saveFailure)

/-- One mutating store operation, for stating state-machine invariants. -/
inductive Op where
  | addExchange (name : String)
  | addRating (exchange criterion : String) (rating : Int)
deriving DecidableEq

/-- Run one operation, keeping the resulting state whether or not the
operation reported an error (exactly what a caller holding the store has). -/
def runOp (sw : LevesonRatingSystem × World) (op : Op) :
    LevesonRatingSystem × World :=
  match op with
  | .addExchange n =>
    let r := add_exchange sw.1 sw.2 n
    (r.1, r.2.1)
  | .addRating e c v =>
    let r := add_rating sw.1 sw.2 e c v
    (r.1, r.2.1)

/-- Run a sequence of operations from a starting state. -/
def runOps (s : LevesonRatingSystem) (w : World) (ops : List Op) :
    LevesonRatingSystem × World :=
  ops.foldl runOp (s, w)

/-- The `total_ratings` bookkeeping invariant: every exchange's counter
equals the sum of the lengths of its four per-category sequences. -/
def totalsInvariant (s : LevesonRatingSystem) : Prop :=
  ∀ p ∈ s.exchanges, p.2.metadata.total_ratings = p.2.ratingCount

/-- Follows the spec's words (C7): "flat mean over every individual rating
ever recorded for that category, across all exchanges" — the ratings the
whole store holds for one category. -/
def specCategoryRatings (s : LevesonRatingSystem) (c : String) : List Rating :=
  s.exchanges.flatMap (fun p => (p.2.get_category c).getD [])

/-- Follows the spec's words (C5): the assessment dimensions in which an
exchange has at least one rating. -/
def specRatedCategories (e : ExchangeData) : List String :=
  defaultCategories.filter (fun c => ((e.get_category c).getD []) ≠ [])

/-- Follows the spec's words (C5): "mean of that exchange's per-category
means", over exactly the categories with at least one rating; no value for
an exchange with no ratings at all. -/
def specPerExchangeAverage (e : ExchangeData) : Option ℚ :=
  let means := (specRatedCategories e).map (fun c => listMean ((e.get_category c).getD []))
  if means.isEmpty then none else some (means.sum / (means.length : ℚ))

/-- A concrete world with no files, a working disk and a fixed clock. -/
def idleWorld : World := { files := [], writeOk := true, now := "t0" }

/-- A concrete store with no exchanges yet (default categories, no path). -/
def freshStore : LevesonRatingSystem :=
  { categories := defaultCategories, storage_path := none, exchanges := [] }

/-- A concrete world whose storage file exists but is malformed. -/
def corruptWorld : World :=
  { files := [("lbtas_ratings.json", .malformed)], writeOk := true, now := "t0" }

/-- A concrete world with no files whose disk rejects every write. -/
def noDiskWorld : World := { files := [], writeOk := false, now := "t1" }

/-- The spec's scenario exchange: reliability 3 and 1, usability 4. -/
def acme : ExchangeData :=
  { reliability := [3, 1], usability := [4], performance := [], support := []
    metadata := { created := "t0", total_ratings := 3 } }

/-- A concrete in-memory store holding the `acme` exchange. -/
def acmeStore : LevesonRatingSystem :=
  { categories := defaultCategories, storage_path := none,
    exchanges := [("acme", acme)] }

/-- A concrete store whose configured category list holds a name that is not
one of the four storage dimensions. -/
def speedStore : LevesonRatingSystem :=
  { categories := ["speed"], storage_path := none,
    exchanges := [("e", ExchangeData.new "t0")] }

/-- A concrete store with a storage path, holding the `acme` exchange. -/
def pathStore : LevesonRatingSystem :=
  { categories := defaultCategories, storage_path := some "lbtas_ratings.json",
    exchanges := [("acme", acme)] }

/-- An exchange with the single rating 2 in reliability. -/
def twoRated : ExchangeData :=
  { reliability := [2], usability := [], performance := [], support := []
    metadata := { created := "t0", total_ratings := 1 } }

/-- Two stores holding equal data (the same exchange-name-to-data map) whose
association lists — standing for `HashMap` iteration order — differ. -/
def tieStoreA : LevesonRatingSystem :=
  { categories := defaultCategories, storage_path := none,
    exchanges := [("a", twoRated), ("b", twoRated)] }

/-- See `tieStoreA`: the same map in the other iteration order. -/
def tieStoreB : LevesonRatingSystem :=
  { categories := defaultCategories, storage_path := none,
    exchanges := [("b", twoRated), ("a", twoRated)] }

/-- An exchange with the single rating 4 in reliability. -/
def rated4 : ExchangeData :=
  { reliability := [4], usability := [], performance := [], support := []
    metadata := { created := "t0", total_ratings := 1 } }

/-- Two stores holding the same map with distinct per-exchange averages, in
different iteration orders. -/
def distinctStoreA : LevesonRatingSystem :=
  { categories := defaultCategories, storage_path := none,
    exchanges := [("hi", rated4), ("lo", twoRated)] }

/-- See `distinctStoreA`: the same map in the other iteration order. -/
def distinctStoreB : LevesonRatingSystem :=
  { categories := defaultCategories, storage_path := none,
    exchanges := [("lo", twoRated), ("hi", rated4)] }

/- ------------------------------------------------------------------ -/
/- Helper lemmas                                                      -/
/- ------------------------------------------------------------------ -/

theorem save_to_file_ok (s : LevesonRatingSystem) (w : World)
    (hw : w.writeOk = true) : (save_to_file s w).2 = .ok () := by
  unfold save_to_file
  cases s.storage_path with
  | none => rfl
  | some p => simp [hw]

theorem save_to_file_world_ok (s : LevesonRatingSystem) (w : World)
    (hw : w.writeOk = true) (p : String) (hp : s.storage_path = some p) :
    (save_to_file s w).1 = w.writeFile p (.wellFormed s.exchanges) := by
  unfold save_to_file
  rw [hp]
  simp [hw]

theorem find_update_eq (l : List (String × ExchangeData)) (n : String)
    (d : ExchangeData) (h : (l.find? (fun p => p.1 == n)).isSome = true) :
    ((updateExchange l n d).find? (fun p => p.1 == n)) = some (n, d) := by
  induction l with
  | nil => simp [List.find?] at h
  | cons q t ih =>
    unfold updateExchange at ih ⊢
    by_cases hq : q.1 == n
    · have hqn : q.1 = n := by simpa using hq
      simp [List.find?_cons, hq, hqn]
    · simp only [List.map_cons, if_neg hq]
      rw [List.find?_cons_of_neg _ (by simpa using hq)]
      apply ih
      rw [List.find?_cons_of_neg _ (by simpa using hq)] at h
      exact h

theorem lookupExchange_update (s : LevesonRatingSystem) (n : String)
    (d : ExchangeData) (h : (lookupExchange s n).isSome = true) :
    lookupExchange { s with exchanges := updateExchange s.exchanges n d } n
      = some d := by
  unfold lookupExchange at h ⊢
  rw [find_update_eq s.exchanges n d (by
    cases hf : s.exchanges.find? (fun p => p.1 == n) with
    | none => rw [hf] at h; simp at h
    | some q => simp [hf])]
  rfl

theorem find_map_overwrite (l : List (String × FileContent)) (p : String)
    (c : FileContent) (h : (l.find? (fun q => q.1 == p)).isSome = true) :
    ((l.map (fun q => if q.1 == p then (q.1, c) else q)).find?
      (fun q => q.1 == p)) = some (p, c) := by
  induction l with
  | nil => simp at h
  | cons q t ih =>
    by_cases hq : q.1 == p
    · have hqp : q.1 = p := by simpa using hq
      simp [List.find?_cons, hq, hqp]
    · simp only [List.map_cons, if_neg hq]
      rw [List.find?_cons_of_neg _ (by simpa using hq)]
      apply ih
      rw [List.find?_cons_of_neg _ (by simpa using hq)] at h
      exact h

theorem readFile_writeFile (w : World) (p : String) (c : FileContent) :
    (w.writeFile p c).readFile p = some c := by
  unfold World.writeFile World.readFile
  by_cases h : (w.files.find? (fun q => q.1 == p)).isSome = true
  · rw [if_pos h]
    show ((w.files.map (fun q => if q.1 == p then (q.1, c) else q)).find?
      (fun q => q.1 == p)).map (fun q => q.2) = some c
    rw [find_map_overwrite w.files p c h]
    rfl
  · have hn : w.files.find? (fun q => q.1 == p) = none :=
      Option.not_isSome_iff_eq_none.mp (by simpa using h)
    rw [if_neg h]
    show ((w.files ++ [(p, c)]).find? (fun q => q.1 == p)).map (fun q => q.2)
      = some c
    rw [List.find?_append, hn]
    simp

theorem save_none (s : LevesonRatingSystem) (w : World)
    (h : s.storage_path = none) : save_to_file s w = (w, .ok ()) := by
  unfold save_to_file
  rw [h]

/- ------------------------------------------------------------------ -/
/- Claim theorems                                                     -/
/- ------------------------------------------------------------------ -/

/-- C2: `add_rating` fails with the unknown-exchange error when the exchange
is absent; with the invalid-category error when the exchange exists but the
category is not in the configured list; with the out-of-range error when the
exchange exists, the category is configured, and the value lies outside
[-1, 4]; and on each such failure the store and the world are returned
completely unchanged (atomic accept-or-reject). -/
theorem add_rating_rejects_invalid (s : LevesonRatingSystem) (w : World)
    (name criterion : String) (v : Int) :
    (lookupExchange s name = none →
      add_rating s w name criterion v = (s, w, .error (.unknownExchange name)))
    ∧ (∀ e, lookupExchange s name = some e →
        s.categories.contains criterion = false →
        add_rating s w name criterion v
          = (s, w, .error (.invalidCriterion criterion s.categories)))
    ∧ (∀ e, lookupExchange s name = some e →
        s.categories.contains criterion = true → (v < -1 ∨ v > 4) →
        add_rating s w name criterion v
          = (s, w, .error (.ratingOutOfRange v))) := by
  refine ⟨?_, ?_, ?_⟩
  · intro h
    simp [add_rating, h]
  · intro e he hc
    have hc' : criterion ∉ s.categories := by simpa using hc
    simp [add_rating, he, hc']
  · intro e he hc hv
    have hc' : criterion ∈ s.categories := by simpa using hc
    simp [add_rating, he, hc', hv]

/-- Witness for C2: all three rejections at concrete inputs, each leaving
the store and world untouched. -/
theorem add_rating_rejects_invalid_witness :
    add_rating acmeStore idleWorld "ghost" "reliability" 2
      = (acmeStore, idleWorld, .error (.unknownExchange "ghost"))
    ∧ add_rating acmeStore idleWorld "acme" "speed" 2
      = (acmeStore, idleWorld,
          .error (.invalidCriterion "speed" acmeStore.categories))
    ∧ add_rating acmeStore idleWorld "acme" "reliability" 5
      = (acmeStore, idleWorld, .error (.ratingOutOfRange 5)) :=
  ⟨(add_rating_rejects_invalid acmeStore idleWorld "ghost" "reliability" 2).1
      rfl,
   (add_rating_rejects_invalid acmeStore idleWorld "acme" "speed" 2).2.1
      acme rfl rfl,
   (add_rating_rejects_invalid acmeStore idleWorld "acme" "reliability" 5).2.2
      acme rfl rfl (by decide)⟩

/-- C3 counterexample: constructing a store over an existing but malformed
storage file surfaces nothing — `new` returns an ordinary empty store (its
Rust signature `-> Self` has no error channel; `let _ = system.load_from_file()`
discards the parse error, whose existence the third conjunct shows). -/
theorem new_swallows_corrupt_file_cex :
    corruptWorld.readFile "lbtas_ratings.json" = some .malformed
    ∧ LevesonRatingSystem.new (some "lbtas_ratings.json") none corruptWorld
        = { categories := defaultCategories,
            storage_path := some "lbtas_ratings.json", exchanges := [] }
    ∧ (load_from_file
          { categories := defaultCategories,
            storage_path := some "lbtas_ratings.json", exchanges := [] }
          corruptWorld).2 = .error .loadFailure :=
  ⟨rfl, rfl, rfl⟩

/-- C3 (amended): a missing storage file is a non-error (construction yields
the empty store), and `load_from_file` itself reports malformed content as a
load error while leaving the store untouched; construction, however,
silently discards that failure and yields an empty store instead of
surfacing it. -/
theorem construction_load_behavior (path : String)
    (cats : Option (List String)) (w : World) :
    (w.readFile path = none →
      LevesonRatingSystem.new (some path) cats w
        = { categories := cats.getD defaultCategories,
            storage_path := some path, exchanges := [] })
    ∧ (w.readFile path = some .malformed →
      LevesonRatingSystem.new (some path) cats w
        = { categories := cats.getD defaultCategories,
            storage_path := some path, exchanges := [] }
      ∧ ∀ s : LevesonRatingSystem, s.storage_path = some path →
          load_from_file s w = (s, .error .loadFailure)) := by
  constructor
  · intro h
    simp [LevesonRatingSystem.new, load_from_file, h]
  · intro h
    refine ⟨by simp [LevesonRatingSystem.new, load_from_file, h], ?_⟩
    intro s hs
    simp [load_from_file, hs, h]

/-- Witness for C3 (amended): a missing file hydrates to the empty store,
and `load_from_file` on a malformed file reports the load failure. -/
theorem construction_load_behavior_witness :
    idleWorld.readFile "lbtas_ratings.json" = none
    ∧ LevesonRatingSystem.new (some "lbtas_ratings.json") none idleWorld
        = { categories := defaultCategories,
            storage_path := some "lbtas_ratings.json", exchanges := [] }
    ∧ corruptWorld.readFile "lbtas_ratings.json" = some .malformed
    ∧ load_from_file pathStore corruptWorld
        = (pathStore, .error .loadFailure) :=
  ⟨rfl,
   (construction_load_behavior "lbtas_ratings.json" none idleWorld).1 rfl,
   rfl,
   ((construction_load_behavior "lbtas_ratings.json" none corruptWorld).2
      rfl).2 pathStore rfl⟩

/-- C10: with no storage path, load and save are no-op successes, the world
passes through `add_exchange` and `add_rating` unchanged (nothing is read
or written), and each operation's resulting store and status are
independent of the filesystem contents and of whether writes succeed. -/
theorem no_storage_path_pure (s : LevesonRatingSystem) (w : World)
    (name criterion : String) (v : Int) (h : s.storage_path = none) :
    load_from_file s w = (s, .ok ())
    ∧ save_to_file s w = (w, .ok ())
    ∧ (add_exchange s w name).2.1 = w
    ∧ (add_rating s w name criterion v).2.1 = w
    ∧ (∀ w' : World, w'.now = w.now →
        (add_exchange s w' name).1 = (add_exchange s w name).1
        ∧ (add_exchange s w' name).2.2 = (add_exchange s w name).2.2)
    ∧ (∀ w' : World,
        (add_rating s w' name criterion v).1
          = (add_rating s w name criterion v).1
        ∧ (add_rating s w' name criterion v).2.2
          = (add_rating s w name criterion v).2.2) := by
  have hload : load_from_file s w = (s, .ok ()) := by
    unfold load_from_file
    rw [h]
  have hsave : ∀ (ex : List (String × ExchangeData)) (w₀ : World),
      save_to_file { s with exchanges := ex } w₀ = (w₀, .ok ()) :=
    fun ex w₀ => save_none _ w₀ h
  refine ⟨hload, save_none s w h, ?_, ?_, ?_, ?_⟩
  · by_cases hl : (lookupExchange s name).isSome = true
    · simp [add_exchange, hl]
    · simp [add_exchange, hl, hsave]
  · cases hl : lookupExchange s name with
    | none => simp [add_rating, hl]
    | some exchange =>
      by_cases hc : criterion ∈ s.categories
      · by_cases hv : v < -1 ∨ v > 4
        · simp [add_rating, hl, hc, hv]
        · cases hg : exchange.get_category criterion with
          | none => simp [add_rating, hl, hc, hv, hg]
          | some l => simp [add_rating, hl, hc, hv, hg, hsave]
      · simp [add_rating, hl, hc]
  · intro w' hn
    by_cases hl : (lookupExchange s name).isSome = true
    · simp [add_exchange, hl]
    · simp [add_exchange, hl, hsave, hn]
  · intro w'
    cases hl : lookupExchange s name with
    | none => simp [add_rating, hl]
    | some exchange =>
      by_cases hc : criterion ∈ s.categories
      · by_cases hv : v < -1 ∨ v > 4
        · simp [add_rating, hl, hc, hv]
        · cases hg : exchange.get_category criterion with
          | none => simp [add_rating, hl, hc, hv, hg]
          | some l => simp [add_rating, hl, hc, hv, hg, hsave]
      · simp [add_rating, hl, hc]

/-- Witness for C10: a pathless store loads and saves as no-ops. -/
theorem no_storage_path_pure_witness :
    acmeStore.storage_path = none
    ∧ load_from_file acmeStore idleWorld = (acmeStore, .ok ())
    ∧ save_to_file acmeStore idleWorld = (idleWorld, .ok ()) :=
  ⟨rfl,
   (no_storage_path_pure acmeStore idleWorld "x" "reliability" 2 rfl).1,
   (no_storage_path_pure acmeStore idleWorld "x" "reliability" 2 rfl).2.1⟩

/-- C9: with a storage path, each mutating operation flushes synchronously:
when the operation succeeds, the storage file holds exactly the
post-mutation exchange map; when the write fails, the operation reports the
save error, yet the in-memory mutation — the inserted exchange, or the
appended rating with its incremented counter — is present in the returned
store. -/
theorem mutations_flush_and_survive_save_failure (s : LevesonRatingSystem)
    (w : World) (p name criterion : String) (v : Int) (e : ExchangeData)
    (l : List Rating) (hp : s.storage_path = some p) :
    (w.writeOk = false → lookupExchange s name = none →
      add_exchange s w name
        = ({ s with
              exchanges := s.exchanges ++ [(name, ExchangeData.new w.now)] },
            w, .error .saveFailure))
    ∧ (w.writeOk = false → lookupExchange s name = some e →
      criterion ∈ s.categories → e.get_category criterion = some l →
      ¬ (v < -1 ∨ v > 4) →
      add_rating s w name criterion v
        = ({ s with
              exchanges :=
                updateExchange s.exchanges name
                  ((e.set_category criterion (l ++ [v])).incrTotal) },
            w, .error .saveFailure))
    ∧ ((add_exchange s w name).2.2 = .ok () →
      (add_exchange s w name).2.1.readFile p
        = some (.wellFormed (add_exchange s w name).1.exchanges))
    ∧ ((add_rating s w name criterion v).2.2 = .ok () →
      (add_rating s w name criterion v).2.1.readFile p
        = some (.wellFormed (add_rating s w name criterion v).1.exchanges)) := by
  have hsavef : ∀ (ex : List (String × ExchangeData)) (w₀ : World),
      w₀.writeOk = false →
      save_to_file { s with exchanges := ex } w₀ = (w₀, .error .saveFailure) := by
    intro ex w₀ hw
    unfold save_to_file
    simp only [hp]
    rw [if_neg (by simp [hw])]
  have hsaves : ∀ (ex : List (String × ExchangeData)) (w₀ : World),
      w₀.writeOk = true →
      save_to_file { s with exchanges := ex } w₀
        = (w₀.writeFile p (.wellFormed ex), .ok ()) := by
    intro ex w₀ hw
    unfold save_to_file
    simp only [hp]
    rw [if_pos (by simp [hw])]
  refine ⟨?_, ?_, ?_, ?_⟩
  · intro hw hl
    simp [add_exchange, hl, hsavef _ _ hw]
  · intro hw hl hc hg hv
    simp [add_rating, hl, hc, hg, hv, hsavef _ _ hw]
  · intro hok
    by_cases hw : w.writeOk = true
    · by_cases hl : (lookupExchange s name).isSome = true
      · exfalso
        simp [add_exchange, hl] at hok
      · simp [add_exchange, hl, hsaves _ _ hw, readFile_writeFile]
    · by_cases hl : (lookupExchange s name).isSome = true
      · exfalso
        simp [add_exchange, hl] at hok
      · exfalso
        have hw' : w.writeOk = false := by
          cases hwo : w.writeOk
          · rfl
          · exact absurd hwo hw
        simp [add_exchange, hl, hsavef _ _ hw'] at hok
  · intro hok
    cases hl : lookupExchange s name with
    | none => exfalso; simp [add_rating, hl] at hok
    | some ex =>
      by_cases hc : criterion ∈ s.categories
      · by_cases hv : v < -1 ∨ v > 4
        · exfalso; simp [add_rating, hl, hc, hv] at hok
        · cases hg : ex.get_category criterion with
          | none => exfalso; simp [add_rating, hl, hc, hv, hg] at hok
          | some l₀ =>
            by_cases hw : w.writeOk = true
            · simp [add_rating, hl, hc, hv, hg, hsaves _ _ hw,
                readFile_writeFile]
            · exfalso
              have hw' : w.writeOk = false := by
                cases hwo : w.writeOk
                · rfl
                · exact absurd hwo hw
              simp [add_rating, hl, hc, hv, hg, hsavef _ _ hw'] at hok
      · exfalso; simp [add_rating, hl, hc] at hok

/-- Witness for C9: a failed write leaves the new exchange in memory while
reporting the save error; a successful `add_exchange` leaves the new map on
disk. -/
theorem mutations_flush_witness :
    pathStore.storage_path = some "lbtas_ratings.json"
    ∧ noDiskWorld.writeOk = false
    ∧ lookupExchange pathStore "nova" = none
    ∧ add_exchange pathStore noDiskWorld "nova"
        = ({ pathStore with
              exchanges := pathStore.exchanges
                ++ [("nova", ExchangeData.new noDiskWorld.now)] },
            noDiskWorld, .error .saveFailure)
    ∧ ((add_exchange pathStore idleWorld "nova").2.2 = .ok ()
      ∧ (add_exchange pathStore idleWorld "nova").2.1.readFile
          "lbtas_ratings.json"
        = some (.wellFormed (add_exchange pathStore idleWorld "nova").1.exchanges)) :=
  ⟨rfl, rfl, rfl,
   (mutations_flush_and_survive_save_failure pathStore noDiskWorld
      "lbtas_ratings.json" "nova" "reliability" 2 acme [] rfl).1 rfl rfl,
   ⟨rfl,
    (mutations_flush_and_survive_save_failure pathStore idleWorld
      "lbtas_ratings.json" "nova" "reliability" 2 acme [] rfl).2.2.1 rfl⟩⟩

theorem push_preserves_totals (e : ExchangeData) (c : String)
    (l : List Rating) (v : Rating) (hg : e.get_category c = some l)
    (he : e.metadata.total_ratings = e.ratingCount) :
    ((e.set_category c (l ++ [v])).incrTotal).metadata.total_ratings
      = ((e.set_category c (l ++ [v])).incrTotal).ratingCount := by
  unfold ExchangeData.get_category at hg
  unfold ExchangeData.ratingCount at he
  unfold ExchangeData.set_category ExchangeData.incrTotal
    ExchangeData.ratingCount
  split_ifs at hg ⊢ <;> (try simp_all) <;> omega

theorem mem_of_lookupExchange (s : LevesonRatingSystem) (n : String)
    (e : ExchangeData) (h : lookupExchange s n = some e) :
    ∃ k, (k, e) ∈ s.exchanges := by
  unfold lookupExchange at h
  cases hf : s.exchanges.find? (fun p => p.1 == n) with
  | none => rw [hf] at h; cases h
  | some q =>
    rw [hf] at h
    refine ⟨q.1, ?_⟩
    have hq := List.mem_of_find?_eq_some hf
    have : q.2 = e := by simpa using h
    rw [← this]
    simpa using hq

theorem add_exchange_totals (s : LevesonRatingSystem) (w : World) (n : String)
    (h : totalsInvariant s) : totalsInvariant (add_exchange s w n).1 := by
  by_cases hl : (lookupExchange s n).isSome = true
  · simpa [add_exchange, hl] using h
  · intro q hq
    simp only [add_exchange, hl] at hq
    rw [if_neg (by simp [hl])] at hq
    simp only [List.mem_append, List.mem_singleton] at hq
    rcases hq with hq | hq
    · exact h q hq
    · subst hq
      rfl

theorem add_rating_totals (s : LevesonRatingSystem) (w : World)
    (n c : String) (v : Int) (h : totalsInvariant s) :
    totalsInvariant (add_rating s w n c v).1 := by
  cases hl : lookupExchange s n with
  | none => simpa [add_rating, hl] using h
  | some e =>
    by_cases hc : c ∈ s.categories
    · by_cases hv : v < -1 ∨ v > 4
      · simpa [add_rating, hl, hc, hv] using h
      · cases hg : e.get_category c with
        | none => simpa [add_rating, hl, hc, hv, hg] using h
        | some l =>
          intro q hq
          have he : e.metadata.total_ratings = e.ratingCount := by
            obtain ⟨k, hk⟩ := mem_of_lookupExchange s n e hl
            exact h (k, e) hk
          have hex' := push_preserves_totals e c l v hg he
          simp [add_rating, hl, hc, hv, hg, updateExchange] at hq
          obtain ⟨q₁, q₂, hmem, hqeq⟩ := hq
          rw [← hqeq]
          by_cases hqn : q₁ = n
          · rw [if_pos hqn]
            exact hex'
          · rw [if_neg hqn]
            exact h (q₁, q₂) hmem
    · simpa [add_rating, hl, hc] using h

theorem runOps_totals (ops : List Op) :
    ∀ (s : LevesonRatingSystem) (w : World),
    totalsInvariant s → totalsInvariant (runOps s w ops).1 := by
  induction ops with
  | nil =>
    intro s w h0
    simpa [runOps] using h0
  | cons op rest ih =>
    intro s w h0
    have hpres : totalsInvariant (runOp (s, w) op).1 := by
      cases op with
      | addExchange n => exact add_exchange_totals s w n h0
      | addRating en c v => exact add_rating_totals s w en c v h0
    have hres := ih (runOp (s, w) op).1 (runOp (s, w) op).2 hpres
    simpa [runOps, List.foldl_cons] using hres

/-- C4: starting from a store with no exchanges, after any sequence of
`add_exchange` / `add_rating` operations — successful or failed — every
exchange's `total_ratings` counter equals the sum of the lengths of its
per-category rating sequences. -/
theorem totals_counter_matches_sequences (s : LevesonRatingSystem)
    (w : World) (ops : List Op) (h : s.exchanges = []) :
    totalsInvariant (runOps s w ops).1 := by
  apply runOps_totals
  intro p hp
  rw [h] at hp
  cases hp

/-- Witness for C4: a concrete run mixing creation, valid ratings, and
rejected ratings (bad category, bad value) keeps the counter in sync. -/
theorem totals_counter_matches_sequences_witness :
    freshStore.exchanges = []
    ∧ totalsInvariant
        (runOps freshStore idleWorld
          [.addExchange "acme", .addRating "acme" "reliability" 3,
           .addRating "acme" "reliability" 1, .addRating "acme" "usability" 4,
           .addRating "acme" "speed" 2, .addRating "acme" "support" 9,
           .addRating "ghost" "support" 1]).1 :=
  ⟨rfl,
   totals_counter_matches_sequences freshStore idleWorld
     [.addExchange "acme", .addRating "acme" "reliability" 3,
      .addRating "acme" "reliability" 1, .addRating "acme" "usability" 4,
      .addRating "acme" "speed" 2, .addRating "acme" "support" 9,
      .addRating "ghost" "support" 1] rfl⟩

theorem get_category_push (e : ExchangeData) (c : String) (l : List Rating)
    (v : Rating) (hg : e.get_category c = some l) :
    ((e.set_category c (l ++ [v])).incrTotal).get_category c
      = some (l ++ [v]) := by
  unfold ExchangeData.get_category at hg ⊢
  unfold ExchangeData.set_category ExchangeData.incrTotal
  split_ifs at hg ⊢ <;> simp_all

theorem view_find_category (cats : List String) (e : ExchangeData)
    (c : String) (l : List Rating) (hc : c ∈ cats)
    (hl : e.get_category c = some l) (hne : l ≠ []) :
    (cats.filterMap (fun criterion =>
      match e.get_category criterion with
      | some cat =>
        if cat.isEmpty then some (criterion, none)
        else some (criterion, some (roundTo2 (listMean cat)))
      | none => none)).find? (fun q => q.1 == c)
      = some (c, some (roundTo2 (listMean l))) := by
  induction cats with
  | nil => cases hc
  | cons c₀ t ih =>
    rw [List.filterMap_cons]
    by_cases h₀ : c₀ = c
    · subst h₀
      rw [hl]
      have hemp : l.isEmpty = false := by
        cases l with
        | nil => exact absurd rfl hne
        | cons a t₀ => rfl
      simp [hemp]
    · have hct : c ∈ t := by
        cases hc with
        | head => exact absurd rfl h₀
        | tail _ hmem => exact hmem
      cases hg0 : e.get_category c₀ with
      | none => exact ih hct
      | some cat0 =>
        dsimp only
        by_cases hemp : cat0.isEmpty = true
        · rw [if_pos hemp]
          rw [List.find?_cons_of_neg _ (by simpa using h₀)]
          exact ih hct
        · rw [if_neg hemp]
          rw [List.find?_cons_of_neg _ (by simpa using h₀)]
          exact ih hct

theorem view_ratings_eq (s : LevesonRatingSystem) (n : String)
    (e : ExchangeData) (h : lookupExchange s n = some e) :
    view_ratings s n = .ok
      { ratings :=
          s.categories.filterMap (fun criterion =>
            match e.get_category criterion with
            | some cat =>
              if cat.isEmpty then some (criterion, none)
              else some (criterion, some (roundTo2 (listMean cat)))
            | none => none) } := by
  unfold view_ratings
  rw [h]

/-- C1 counterexample: in a store whose configured category list is
["speed"], the exchange exists, "speed" is in the configured list and
2 ∈ [-1, 4], yet `add_rating` rejects the rating (the name-to-field
dispatch of `get_category_mut` knows only the four fixed dimensions) and
the store is unchanged, so no mean can reflect the value. -/
theorem add_rating_config_category_cex :
    "speed" ∈ speedStore.categories
    ∧ lookupExchange speedStore "e" = some (ExchangeData.new "t0")
    ∧ (-1 : Int) ≤ 2 ∧ (2 : Int) ≤ 4
    ∧ add_rating speedStore idleWorld "e" "speed" 2
        = (speedStore, idleWorld, .error (.invalidCategory "speed")) :=
  ⟨by decide, rfl, by decide, by decide, rfl⟩

/-- C1 (amended): for an existing exchange, a configured category that is
also one of the four storage dimensions, and a rating value in [-1, 4],
`add_rating` succeeds (provided the persistence flush can write), appends
the value to that category's sequence, and a subsequent `view_ratings`
reports that category's two-decimal-rounded arithmetic mean over the
extended sequence. -/
theorem add_rating_then_view (s : LevesonRatingSystem) (w : World)
    (name criterion : String) (v : Int) (e : ExchangeData) (l : List Rating)
    (hex : lookupExchange s name = some e)
    (hcat : criterion ∈ s.categories)
    (hfield : e.get_category criterion = some l)
    (hlo : -1 ≤ v) (hhi : v ≤ 4) (hw : w.writeOk = true) :
    (add_rating s w name criterion v).2.2 = .ok ()
    ∧ ∃ e', lookupExchange (add_rating s w name criterion v).1 name = some e'
      ∧ e'.get_category criterion = some (l ++ [v])
      ∧ ∃ r, view_ratings (add_rating s w name criterion v).1 name = .ok r
        ∧ r.ratings.find? (fun q => q.1 == criterion)
          = some (criterion, some (roundTo2 (listMean (l ++ [v])))) := by
  have hv : ¬ (v < -1 ∨ v > 4) := by omega
  obtain ⟨ex', hexdef⟩ :
      ∃ ex', ex' = (e.set_category criterion (l ++ [v])).incrTotal := ⟨_, rfl⟩
  have hres : add_rating s w name criterion v
      = ({ s with exchanges := updateExchange s.exchanges name ex' },
         (save_to_file { s with exchanges := updateExchange s.exchanges name ex' } w).1,
         (save_to_file { s with exchanges := updateExchange s.exchanges name ex' } w).2) := by
    subst hexdef
    simp [add_rating, hex, hcat, hv, hfield]
  have hlook : lookupExchange (add_rating s w name criterion v).1 name
      = some ex' := by
    rw [hres]
    exact lookupExchange_update s name ex' (by rw [hex]; rfl)
  have hget : ex'.get_category criterion = some (l ++ [v]) := by
    rw [hexdef]
    exact get_category_push e criterion l v hfield
  refine ⟨?_, ex', hlook, hget, ?_⟩
  · rw [hres]
    exact save_to_file_ok _ w hw
  · refine ⟨_, view_ratings_eq _ name ex' hlook, ?_⟩
    have hcats : (add_rating s w name criterion v).1.categories
        = s.categories := by
      rw [hres]
    rw [hcats]
    exact view_find_category s.categories ex' criterion (l ++ [v]) hcat hget
      (by simp)

/-- Witness for C1 (amended): adding support-rating 0 to `acme` succeeds. -/
theorem add_rating_then_view_witness :
    lookupExchange acmeStore "acme" = some acme
    ∧ "support" ∈ acmeStore.categories
    ∧ acme.get_category "support" = some []
    ∧ (-1 : Int) ≤ 0 ∧ (0 : Int) ≤ 4 ∧ idleWorld.writeOk = true
    ∧ (add_rating acmeStore idleWorld "acme" "support" 0).2.2 = .ok () :=
  ⟨rfl, by decide, rfl, by decide, by decide, rfl,
   (add_rating_then_view acmeStore idleWorld "acme" "support" 0 acme []
      rfl (by decide) rfl (by decide) (by decide) rfl).1⟩

theorem find_map_key (cats : List String) (f : String → Option ℚ)
    (c : String) (hc : c ∈ cats) :
    ((cats.map (fun c₀ => (c₀, f c₀))).find? (fun q => q.1 == c))
      = some (c, f c) := by
  induction cats with
  | nil => cases hc
  | cons c₀ t ih =>
    by_cases h₀ : c₀ = c
    · subst h₀
      simp [List.find?_cons]
    · rw [List.map_cons, List.find?_cons_of_neg _ (by simpa using h₀)]
      exact ih (by
        cases hc with
        | head => exact absurd rfl h₀
        | tail _ hm => exact hm)

theorem categoryTotals_entry_eq_spec (s : LevesonRatingSystem) (c : String) :
    s.exchanges.flatMap (fun p =>
      match p.2.get_category c with
      | some l => if l.isEmpty then [] else l
      | none => []) = specCategoryRatings s c := by
  unfold specCategoryRatings
  apply List.flatMap_congr
  intro p hp
  cases hg : p.2.get_category c with
  | none => rfl
  | some l =>
    cases l with
    | nil => rfl
    | cons a t => rfl

theorem category_averages_map (s : LevesonRatingSystem)
    (hempty : s.exchanges.isEmpty = false) :
    (generate_report s).category_averages
      = s.categories.map (fun c => (c,
          if (specCategoryRatings s c).isEmpty then none
          else some (listMean (specCategoryRatings s c)))) := by
  unfold generate_report
  rw [if_neg (by simp [hempty] : ¬ s.exchanges.isEmpty = true)]
  show (categoryTotals s).map (fun p =>
      (p.1, if p.2.isEmpty then none else some (listMean p.2)))
    = _
  unfold categoryTotals
  rw [List.map_map]
  apply List.map_congr_left
  intro c₀ hc₀
  simp only [Function.comp]
  rw [categoryTotals_entry_eq_spec s c₀]

/-- C7 counterexample: on a store with no exchanges, `generate_report`
short-circuits to an EMPTY `category_averages` map — the configured
category "reliability" gets no entry at all, where the claim demands an
entry holding `None`. -/
theorem category_averages_empty_store_cex :
    "reliability" ∈ freshStore.categories
    ∧ (generate_report freshStore).category_averages.find?
        (fun q => q.1 == "reliability") = none :=
  ⟨by decide, rfl⟩

/-- C7 (amended): on a store with at least one exchange, every configured
category's `category_averages` entry holds the flat mean over every
individual rating recorded for that category across all exchanges, and
`None` when no exchange has a rating in it; on a store with no exchanges,
however, `category_averages` is the empty map with no entry per category. -/
theorem category_averages_flat_mean (s : LevesonRatingSystem) (c : String)
    (hne : s.exchanges ≠ []) (hc : c ∈ s.categories) :
    (generate_report s).category_averages.find? (fun q => q.1 == c)
      = some (c, if specCategoryRatings s c = [] then none
                 else some (listMean (specCategoryRatings s c))) := by
  have hempty : s.exchanges.isEmpty = false := by simpa using hne
  rw [category_averages_map s hempty]
  rw [find_map_key s.categories _ c hc]
  by_cases hnil : specCategoryRatings s c = []
  · simp [hnil]
  · simp [hnil]

/-- Witness for C7 (amended): the `acme` store yields an entry for the
rated category "reliability". -/
theorem category_averages_flat_mean_witness :
    acmeStore.exchanges ≠ []
    ∧ "reliability" ∈ acmeStore.categories
    ∧ (generate_report acmeStore).category_averages.find?
        (fun q => q.1 == "reliability")
      = some ("reliability",
          if specCategoryRatings acmeStore "reliability" = [] then none
          else some (listMean (specCategoryRatings acmeStore "reliability"))) :=
  ⟨by decide, by decide,
   category_averages_flat_mean acmeStore "reliability" (by decide) (by decide)⟩

/-- C8: exporting the structured document and hydrating a fresh store from
that file is lossless: the rehydrated store holds exactly the original
exchange map — every exchange name, every per-category rating sequence, and
all metadata fields. -/
theorem export_reimport_lossless (s : LevesonRatingSystem) (w : World)
    (out : String) (cats : Option (List String)) (hw : w.writeOk = true) :
    (export_to_json s w out).2 = .ok ()
    ∧ (LevesonRatingSystem.new (some out) cats
        (export_to_json s w out).1).exchanges = s.exchanges := by
  unfold export_to_json
  rw [if_pos (by simp [hw] : w.writeOk = true)]
  refine ⟨rfl, ?_⟩
  have hrf : (w.writeFile out (.wellFormed s.exchanges)).readFile out
      = some (.wellFormed s.exchanges) := readFile_writeFile w out _
  simp [LevesonRatingSystem.new, load_from_file, hrf]

/-- Witness for C8: round-tripping the `acme` store through an export file
restores its exchange map exactly. -/
theorem export_reimport_lossless_witness :
    idleWorld.writeOk = true
    ∧ (export_to_json acmeStore idleWorld "out.json").2 = .ok ()
    ∧ (LevesonRatingSystem.new (some "out.json") none
        (export_to_json acmeStore idleWorld "out.json").1).exchanges
      = acmeStore.exchanges :=
  ⟨rfl,
   (export_reimport_lossless acmeStore idleWorld "out.json" none rfl).1,
   (export_reimport_lossless acmeStore idleWorld "out.json" none rfl).2⟩

theorem generate_report_top (s : LevesonRatingSystem)
    (h : s.exchanges.isEmpty = false) :
    (generate_report s).top_performers = (performances s).take 5 := by
  unfold generate_report
  rw [if_neg (by simp [h] : ¬ s.exchanges.isEmpty = true)]

theorem generate_report_bottom (s : LevesonRatingSystem)
    (h : s.exchanges.isEmpty = false) :
    (generate_report s).bottom_performers
      = (((performances s).reverse.take 5).reverse) := by
  unfold generate_report
  rw [if_neg (by simp [h] : ¬ s.exchanges.isEmpty = true)]

theorem perfDesc_trans : ∀ (a b c : ExchangePerformance),
    perfDesc a b → perfDesc b c → perfDesc a c := by
  intro a b c hab hbc
  simp only [perfDesc, decide_eq_true_eq] at hab hbc ⊢
  exact le_trans hbc hab

theorem perfDesc_total : ∀ (a b : ExchangePerformance),
    perfDesc a b || perfDesc b a := by
  intro a b
  simp only [perfDesc, Bool.or_eq_true, decide_eq_true_eq]
  exact le_total b.average a.average

theorem performances_sorted (s : LevesonRatingSystem) :
    (performances s).Pairwise (fun a b => perfDesc a b = true) := by
  unfold performances
  exact List.sorted_mergeSort perfDesc_trans perfDesc_total _

theorem sorted_perm_distinct_eq :
    ∀ {l₁ l₂ : List ExchangePerformance}, l₁.Perm l₂ →
    l₁.Pairwise (fun a b => perfDesc a b = true) →
    l₂.Pairwise (fun a b => perfDesc a b = true) →
    l₁.Pairwise (fun a b => a.average ≠ b.average) → l₁ = l₂ := by
  intro l₁
  induction l₁ with
  | nil =>
    intro l₂ hp _ _ _
    exact (List.Perm.nil_eq hp)
  | cons a t ih =>
    intro l₂ hp hs₁ hs₂ hd
    cases l₂ with
    | nil =>
      exact absurd hp.length_eq (by simp)
    | cons b t₂ =>
      have hab : a = b := by
        by_contra hne
        have ha2 : a ∈ b :: t₂ := hp.mem_iff.mp (List.mem_cons_self a t)
        have hb1 : b ∈ a :: t := hp.symm.mem_iff.mp (List.mem_cons_self b t₂)
        have hat2 : a ∈ t₂ := by
          cases ha2 with
          | head => exact absurd rfl hne
          | tail _ hm => exact hm
        have hbt : b ∈ t := by
          cases hb1 with
          | head => exact absurd rfl (fun hba => hne hba.symm)
          | tail _ hm => exact hm
        have h1 : b.average ≤ a.average := by
          have := (List.pairwise_cons.mp hs₁).1 b hbt
          simpa [perfDesc] using this
        have h2 : a.average ≤ b.average := by
          have := (List.pairwise_cons.mp hs₂).1 a hat2
          simpa [perfDesc] using this
        exact (List.pairwise_cons.mp hd).1 b hbt (le_antisymm h2 h1)
      subst hab
      have ht : t.Perm t₂ := hp.cons_inv
      rw [ih ht (List.pairwise_cons.mp hs₁).2 (List.pairwise_cons.mp hs₂).2
        (List.pairwise_cons.mp hd).2]

/-- C6 counterexample: two stores holding equal data — the exchange lists
are permutations of one another, modelling two `HashMap`s with the same
contents but different iteration orders — yield differently ordered
`top_performers` when two exchanges tie on average: the stable sort keeps
iteration order among ties. -/
theorem generate_report_order_dependent_cex :
    tieStoreA.exchanges.Perm tieStoreB.exchanges
    ∧ tieStoreA.categories = tieStoreB.categories
    ∧ (generate_report tieStoreA).top_performers
        ≠ (generate_report tieStoreB).top_performers := by
  refine ⟨by decide, rfl, ?_⟩
  have h2 : listMean [(2:Int)] = 2 := by norm_num [listMean]
  have hA : exchangeAverages tieStoreA = [("a", 2), ("b", 2)] := by
    simp [exchangeAverages, tieStoreA, twoRated, perExchangeCategoryMeans,
      defaultCategories, ExchangeData.get_category, h2]
  have hB : exchangeAverages tieStoreB = [("b", 2), ("a", 2)] := by
    simp [exchangeAverages, tieStoreB, twoRated, perExchangeCategoryMeans,
      defaultCategories, ExchangeData.get_category, h2]
  have hpA : performances tieStoreA
      = [{ name := "a", average := 2 }, { name := "b", average := 2 }] := by
    unfold performances
    rw [hA, List.map_cons, List.map_cons, List.map_nil]
    exact List.mergeSort_of_sorted (by simp [perfDesc])
  have hpB : performances tieStoreB
      = [{ name := "b", average := 2 }, { name := "a", average := 2 }] := by
    unfold performances
    rw [hB, List.map_cons, List.map_cons, List.map_nil]
    exact List.mergeSort_of_sorted (by simp [perfDesc])
  rw [generate_report_top tieStoreA rfl, generate_report_top tieStoreB rfl,
    hpA, hpB]
  decide

/-- C6 (amended): `generate_report` is deterministic on equal data whenever
no two ranked exchanges tie: if two stores hold the same configured
categories and exchange maps that are permutations of one another, and all
per-exchange averages are pairwise distinct, then the `top_performers` and
`bottom_performers` lists coincide exactly. (With ties, the order among the
tied exchanges follows the map's unordered iteration, as the
counterexample shows.) -/
theorem report_deterministic_no_ties (s₁ s₂ : LevesonRatingSystem)
    (hcats : s₁.categories = s₂.categories)
    (hperm : s₁.exchanges.Perm s₂.exchanges)
    (hdist : (performances s₁).Pairwise (fun p q => p.average ≠ q.average)) :
    (generate_report s₁).top_performers = (generate_report s₂).top_performers
    ∧ (generate_report s₁).bottom_performers
      = (generate_report s₂).bottom_performers := by
  have havg : (exchangeAverages s₁).Perm (exchangeAverages s₂) := by
    unfold exchangeAverages
    rw [hcats]
    exact hperm.filterMap _
  have hmap : (((exchangeAverages s₁).map
        (fun p => ({ name := p.1, average := p.2 } : ExchangePerformance))).Perm
      ((exchangeAverages s₂).map
        (fun p => ({ name := p.1, average := p.2 } : ExchangePerformance)))) :=
    havg.map _
  have hp : (performances s₁).Perm (performances s₂) := by
    unfold performances
    exact ((List.mergeSort_perm _ perfDesc).trans hmap).trans
      (List.mergeSort_perm _ perfDesc).symm
  have hperf : performances s₁ = performances s₂ :=
    sorted_perm_distinct_eq hp (performances_sorted s₁)
      (performances_sorted s₂) hdist
  by_cases hemp : s₁.exchanges.isEmpty = true
  · have hnil₁ : s₁.exchanges = [] := by simpa using hemp
    have hnil₂ : s₂.exchanges = [] := by
      have := hnil₁ ▸ hperm
      exact this.nil_eq.symm
    unfold generate_report
    rw [if_pos (by simp [hnil₁] : s₁.exchanges.isEmpty = true),
      if_pos (by simp [hnil₂] : s₂.exchanges.isEmpty = true)]
    exact ⟨rfl, rfl⟩
  · have hemp₁ : s₁.exchanges.isEmpty = false := by
      cases hb : s₁.exchanges.isEmpty
      · rfl
      · exact absurd hb hemp
    have hemp₂ : s₂.exchanges.isEmpty = false := by
      have hlen := hperm.length_eq
      cases hx : s₂.exchanges with
      | nil =>
        rw [hx] at hlen
        simp at hlen
        rw [List.isEmpty_eq_false] at hemp₁
        exact absurd hlen hemp₁
      | cons q t => rfl
    rw [generate_report_top s₁ hemp₁, generate_report_top s₂ hemp₂,
      generate_report_bottom s₁ hemp₁, generate_report_bottom s₂ hemp₂,
      hperf]
    exact ⟨rfl, rfl⟩

/-- Witness for C6 (amended): two iteration orders of a map whose two
exchanges average 4 and 2 — no ties — produce identical performer lists. -/
theorem report_deterministic_no_ties_witness :
    distinctStoreA.categories = distinctStoreB.categories
    ∧ distinctStoreA.exchanges.Perm distinctStoreB.exchanges
    ∧ (performances distinctStoreA).Pairwise
        (fun p q => p.average ≠ q.average)
    ∧ (generate_report distinctStoreA).top_performers
        = (generate_report distinctStoreB).top_performers := by
  have h2 : listMean [(2:Int)] = 2 := by norm_num [listMean]
  have h4 : listMean [(4:Int)] = 4 := by norm_num [listMean]
  have hA : exchangeAverages distinctStoreA = [("hi", 4), ("lo", 2)] := by
    simp [exchangeAverages, distinctStoreA, twoRated, rated4,
      perExchangeCategoryMeans, defaultCategories, ExchangeData.get_category,
      h2, h4]
  have hpA : performances distinctStoreA
      = [{ name := "hi", average := 4 }, { name := "lo", average := 2 }] := by
    unfold performances
    rw [hA, List.map_cons, List.map_cons, List.map_nil]
    exact List.mergeSort_of_sorted (by simp [perfDesc]; norm_num)
  have hdist : (performances distinctStoreA).Pairwise
      (fun p q => p.average ≠ q.average) := by
    rw [hpA]
    decide
  exact ⟨rfl, by decide, hdist,
    (report_deterministic_no_ties distinctStoreA distinctStoreB rfl
      (by decide) hdist).1⟩

theorem get_category_none (e : ExchangeData) (c : String)
    (h : c ∉ defaultCategories) : e.get_category c = none := by
  simp only [defaultCategories, List.mem_cons, List.not_mem_nil, or_false,
    not_or] at h
  obtain ⟨h1, h2, h3, h4⟩ := h
  unfold ExchangeData.get_category
  rw [if_neg h1, if_neg h2, if_neg h3, if_neg h4]

theorem specMeans_eq (e : ExchangeData) :
    perExchangeCategoryMeans defaultCategories e
      = (specRatedCategories e).map
          (fun c => listMean ((e.get_category c).getD [])) := by
  unfold perExchangeCategoryMeans specRatedCategories defaultCategories
  by_cases h1 : e.reliability = [] <;> by_cases h2 : e.usability = [] <;>
    by_cases h3 : e.performance = [] <;> by_cases h4 : e.support = [] <;>
    simp [ExchangeData.get_category, h1, h2, h3, h4]

theorem filterMap_filter_support (g : String → Option ℚ) (L : List String)
    (hg : ∀ c, c ∉ L → g c = none) :
    ∀ l : List String,
      l.filterMap g = (l.filter (fun c => decide (c ∈ L))).filterMap g := by
  intro l
  induction l with
  | nil => rfl
  | cons c t ih =>
    by_cases hc : c ∈ L
    · rw [List.filter_cons_of_pos (by simpa using hc), List.filterMap_cons,
        List.filterMap_cons]
      cases hgc : g c with
      | none => exact ih
      | some b => rw [ih]
    · rw [List.filter_cons_of_neg (by simpa using hc), List.filterMap_cons,
        hg c hc]
      exact ih

theorem filterMap_sublist_support (g : String → Option ℚ) :
    ∀ {l L : List String}, l.Sublist L → L.Nodup →
      (∀ c ∈ L, c ∉ l → g c = none) → l.filterMap g = L.filterMap g := by
  intro l L hsub
  induction hsub with
  | slnil =>
    intro _ _
    rfl
  | cons b hsub ih =>
    intro hnd hout
    rw [List.filterMap_cons]
    have hb : g b = none := by
      apply hout b (List.mem_cons_self b _)
      intro hbl
      exact (List.nodup_cons.mp hnd).1 (hsub.subset hbl)
    rw [hb]
    exact ih (List.nodup_cons.mp hnd).2
      (fun c hc hcl => hout c (List.mem_cons_of_mem b hc) hcl)
  | cons₂ a hsub ih =>
    intro hnd hout
    rw [List.filterMap_cons, List.filterMap_cons]
    have hrec := ih (List.nodup_cons.mp hnd).2 (fun c hc hcl => by
      apply hout c (List.mem_cons_of_mem a hc)
      intro hmem
      cases hmem with
      | head => exact (List.nodup_cons.mp hnd).1 hc
      | tail _ hm => exact hcl hm)
    cases g a with
    | none => exact hrec
    | some b => rw [hrec]

theorem perExchangeMeans_perm (cats : List String) (e : ExchangeData)
    (hnodup : cats.Nodup)
    (hmiss : ∀ c ∈ defaultCategories, c ∉ cats → e.get_category c = some []) :
    (perExchangeCategoryMeans cats e).Perm
      (perExchangeCategoryMeans defaultCategories e) := by
  unfold perExchangeCategoryMeans
  generalize hgdef : (fun c => match e.get_category c with
    | some l => if l.isEmpty then none else some (listMean l)
    | none => (none : Option ℚ)) = g
  have hgnone : ∀ c, c ∉ defaultCategories → g c = none := by
    intro c hc
    rw [← hgdef]
    simp only [get_category_none e c hc]
  have hgempty : ∀ c ∈ defaultCategories, c ∉ cats → g c = none := by
    intro c hc hnc
    rw [← hgdef]
    simp only [hmiss c hc hnc]
    rfl
  rw [filterMap_filter_support g defaultCategories hgnone cats]
  have hnd : (cats.filter (fun c => decide (c ∈ defaultCategories))).Nodup :=
    hnodup.filter _
  have hsubset : (cats.filter (fun c => decide (c ∈ defaultCategories)))
      ⊆ defaultCategories := by
    intro c hc
    have := List.mem_filter.mp hc
    simpa using this.2
  obtain ⟨l', hl'perm, hl'sub⟩ := List.subperm_of_subset hnd hsubset
  have heq : l'.filterMap g = defaultCategories.filterMap g := by
    apply filterMap_sublist_support g hl'sub (by decide)
    intro c hcL hcnl
    by_cases hcc : c ∈ cats
    · exfalso
      have hcs : c ∈ cats.filter (fun c => decide (c ∈ defaultCategories)) :=
        List.mem_filter.mpr ⟨hcc, by simpa using hcL⟩
      exact hcnl (hl'perm.symm.mem_iff.mp hcs)
    · exact hgempty c hcL hcc
  have hstep : ((cats.filter
      (fun c => decide (c ∈ defaultCategories))).filterMap g).Perm
      (l'.filterMap g) := (hl'perm.filterMap g).symm
  rw [heq] at hstep
  exact hstep

theorem exchangeAverages_spec (s : LevesonRatingSystem)
    (hnodup : s.categories.Nodup)
    (hmiss : ∀ p ∈ s.exchanges, ∀ c ∈ defaultCategories,
      c ∉ s.categories → p.2.get_category c = some []) :
    exchangeAverages s = s.exchanges.filterMap (fun p =>
      (specPerExchangeAverage p.2).map (fun a => (p.1, a))) := by
  unfold exchangeAverages
  apply List.filterMap_congr
  intro p hp
  have hperm := perExchangeMeans_perm s.categories p.2 hnodup (hmiss p hp)
  have hlen : (perExchangeCategoryMeans s.categories p.2).length
      = (perExchangeCategoryMeans defaultCategories p.2).length :=
    hperm.length_eq
  have hsum : (perExchangeCategoryMeans s.categories p.2).sum
      = (perExchangeCategoryMeans defaultCategories p.2).sum :=
    hperm.sum_eq
  unfold specPerExchangeAverage
  rw [← specMeans_eq p.2]
  dsimp only
  by_cases he : (perExchangeCategoryMeans defaultCategories p.2).isEmpty
      = true
  · have he₁ : (perExchangeCategoryMeans s.categories p.2).isEmpty = true := by
      rw [List.isEmpty_iff_length_eq_zero] at he ⊢
      rw [hlen]
      exact he
    rw [if_pos he₁, if_pos he]
    rfl
  · have he₁ : ¬ (perExchangeCategoryMeans s.categories p.2).isEmpty
        = true := by
      rw [List.isEmpty_iff_length_eq_zero] at he ⊢
      rw [hlen]
      exact he
    rw [if_neg he₁, if_neg he]
    rw [hsum, hlen]
    rfl

theorem means_nil_of_zero (cats : List String) (e : ExchangeData)
    (h : e.ratingCount = 0) : perExchangeCategoryMeans cats e = [] := by
  unfold ExchangeData.ratingCount at h
  have h1 : e.reliability = [] := by
    rw [← List.length_eq_zero]
    omega
  have h2 : e.usability = [] := by
    rw [← List.length_eq_zero]
    omega
  have h3 : e.performance = [] := by
    rw [← List.length_eq_zero]
    omega
  have h4 : e.support = [] := by
    rw [← List.length_eq_zero]
    omega
  unfold perExchangeCategoryMeans
  rw [List.filterMap_eq_nil_iff]
  intro c hc
  unfold ExchangeData.get_category
  split_ifs <;> simp [h1, h2, h3, h4]

theorem performances_name_sources (s : LevesonRatingSystem)
    (perf : ExchangePerformance) (h : perf ∈ performances s) :
    ∃ p ∈ s.exchanges, p.1 = perf.name
      ∧ perExchangeCategoryMeans s.categories p.2 ≠ [] := by
  unfold performances at h
  rw [List.mem_mergeSort, List.mem_map] at h
  obtain ⟨pr, hpr, heq⟩ := h
  unfold exchangeAverages at hpr
  rw [List.mem_filterMap] at hpr
  obtain ⟨p, hp, hfp⟩ := hpr
  dsimp only at hfp
  by_cases hm : (perExchangeCategoryMeans s.categories p.2).isEmpty = true
  · rw [if_pos hm] at hfp
    cases hfp
  · rw [if_neg hm] at hfp
    refine ⟨p, hp, ?_, by simpa using hm⟩
    have hpr1 : pr.1 = p.1 := by
      rw [← Option.some.inj hfp]
    rw [← heq, ← hpr1]

theorem zero_rated_excluded (s : LevesonRatingSystem) (n : String)
    (hz : ∀ p ∈ s.exchanges, p.1 = n → p.2.ratingCount = 0) :
    (∀ perf ∈ (generate_report s).top_performers, perf.name ≠ n)
    ∧ (∀ perf ∈ (generate_report s).bottom_performers, perf.name ≠ n) := by
  have key : ∀ perf ∈ performances s, perf.name ≠ n := by
    intro perf hperf hname
    obtain ⟨p, hp, hpn, hne⟩ := performances_name_sources s perf hperf
    have hzero := hz p hp (hpn.trans hname)
    exact hne (means_nil_of_zero s.categories p.2 hzero)
  by_cases hemp : s.exchanges.isEmpty = true
  · unfold generate_report
    rw [if_pos hemp]
    simp
  · have hemp' : s.exchanges.isEmpty = false := by
      cases hb : s.exchanges.isEmpty
      · rfl
      · exact absurd hb hemp
    rw [generate_report_top s hemp', generate_report_bottom s hemp']
    constructor
    · intro perf hperf
      exact key perf (List.mem_of_mem_take hperf)
    · intro perf hperf
      rw [List.mem_reverse] at hperf
      refine key perf ?_
      have hmem := List.mem_of_mem_take hperf
      rwa [List.mem_reverse] at hmem

/-- C5: on stores satisfying the data model's invariants — the configured
category list is a set (no duplicates) and no ratings are stored for
dimensions outside the configured list — the per-exchange average used by
`generate_report` for ranking is exactly the mean of that exchange's
per-category means over the categories holding at least one rating (not a
flat mean over all individual ratings), and every exchange with zero
ratings across all categories appears in neither `top_performers` nor
`bottom_performers`. -/
theorem ranking_mean_of_category_means (s : LevesonRatingSystem)
    (hnodup : s.categories.Nodup)
    (hmiss : ∀ p ∈ s.exchanges, ∀ c ∈ defaultCategories,
      c ∉ s.categories → p.2.get_category c = some []) :
    exchangeAverages s = s.exchanges.filterMap (fun p =>
      (specPerExchangeAverage p.2).map (fun a => (p.1, a)))
    ∧ ∀ n : String, (∀ p ∈ s.exchanges, p.1 = n → p.2.ratingCount = 0) →
      (∀ perf ∈ (generate_report s).top_performers, perf.name ≠ n)
      ∧ (∀ perf ∈ (generate_report s).bottom_performers, perf.name ≠ n) :=
  ⟨exchangeAverages_spec s hnodup hmiss,
   fun n hn => zero_rated_excluded s n hn⟩

/-- Witness for C5: the ranking averages of the `acme` store equal the
spec-side mean of per-category means, exchange by exchange. -/
theorem ranking_mean_of_category_means_witness :
    acmeStore.categories.Nodup
    ∧ (∀ p ∈ acmeStore.exchanges, ∀ c ∈ defaultCategories,
        c ∉ acmeStore.categories → p.2.get_category c = some [])
    ∧ exchangeAverages acmeStore = acmeStore.exchanges.filterMap (fun p =>
        (specPerExchangeAverage p.2).map (fun a => (p.1, a))) :=
  ⟨by decide, by decide,
   (ranking_mean_of_category_means acmeStore (by decide) (by decide)).1⟩

end LBTAS
